import Mathlib

/-!
Shallow embedding of the mellium.im/xml streaming tokenizer and splitter
(files `tokenizer.go` and the unnamed splitter file of the repository).

Bytes are modelled as `Nat` (Go `byte` values, always < 256 on real input;
the only place where 8-bit overflow matters is the `uint8` dash counter of
`decodeComment`, modelled with an explicit `% 256`).  Go strings and byte
slices are modelled as `List Nat`.  The `io.ByteReader` owned by the
tokenizer is modelled as the list of not-yet-read bytes: a successful
`ReadByte` takes the head, and `ReadByte` on the empty list reports
end-of-input.  Reader-level I/O errors other than end-of-input are not
modelled.  A Go `map[string]string` is modelled as an association list in
which an insert prepends the new binding and a lookup takes the first
match; a missing key looks up to the empty string, exactly like Go's map
zero value.  The namespace stacks, which Go keeps as slices growing at the
end and scanned from the last element downwards, are modelled with the top
of the stack at the head of the list (push is cons, pop is tail, and the
top-down walk is plain left-to-right recursion).
-/

set_option autoImplicit false

namespace MelliumXml

/-- Errors returned by the tokenizer model.  `eof` is `io.EOF`;
`syntaxError` is `encoding/xml.SyntaxError` with its `Msg` field;
`other` stands for a `fmt.Errorf` error (the byte interpolated by `%q`
in the Go message is not reproduced in the model); `outOfFuel` is a
model artifact of the fuel-indexed start-element loop and is never
reached when the fuel is at least the number of unread bytes plus one,
since every iteration of that loop consumes at least one byte. -/
inductive XmlError where
  | eof : XmlError
  | syntaxError (msg : String) : XmlError
  | other (msg : String) : XmlError
  | outOfFuel : XmlError
deriving DecidableEq

/-- An XML name: `encoding/xml.Name` with `Space` and `Local` byte strings. -/
structure Name where
  Space : List Nat
  Local : List Nat
deriving DecidableEq

/-- An attribute: `encoding/xml.Attr`. -/
structure Attr where
  AName : Name
  Value : List Nat
deriving DecidableEq

/-- The token sum type (the `encoding/xml` token kinds emitted by the
tokenizer).  The attribute list of a start element is an `Option` so that
a Go `nil` slice (`none`) is distinguished from an empty non-nil slice
(`some []`); `decodeStartElement` always builds the latter. -/
inductive Tok where
  | startElement (name : Name) (attr : Option (List Attr)) : Tok
  | endElement (name : Name) : Tok
  | charData (s : List Nat) : Tok
  | comment (s : List Nat) : Tok
  | directive (s : List Nat) : Tok
  | procInst (target : List Nat) (inst : List Nat) : Tok
deriving DecidableEq

/-- One frame of the prefix stack: a `map[string]string`. -/
def PrefixMap : Type := List (List Nat × List Nat)

instance : DecidableEq PrefixMap := by
  unfold PrefixMap; infer_instance

/-- Tokenizer state (`xml.Tokenizer`): the unread byte stream together
with the `foundStart`, `selfClose`, `prefixes` and `spaces` fields. -/
structure Tokenizer where
  input : List Nat
  foundStart : Bool
  selfClose : Option Name
  prefixes : List PrefixMap
  spaces : List (List Nat)
deriving DecidableEq

/-- Go map lookup with the zero-value default: first binding for the key,
or the empty string when the key is absent. -/
def lookupMap (m : PrefixMap) (k : List Nat) : List Nat :=
  match m with
  | [] => []
  | (k', v) :: rest => if k' = k then v else lookupMap rest k

/-- Go map insert: prepend, so that later lookups see the newest binding. -/
def insertMap (m : PrefixMap) (k v : List Nat) : PrefixMap :=
  (k, v) :: m

/-- The `isSpace` helper of `tokenizer.go`. -/
def isSpace (b : Nat) : Bool :=
  b == 0x20 || b == 0x9 || b == 0xD || b == 0xA

/-- Modelled from the spec: the `isNameByte` function called by
`decodeName` is not among the provided source files.  The glossary gives
the minimum set: ASCII letters, digits, `-`, `_`, `.`, and every byte with
the high bit set.  Section 4.2.4 additionally handles the colon as the
prefix separator *inside* the accumulation loop (`decodeName` reaches its
`b == ':'` branch only after `isNameByte b` holds), so the colon is
accepted here as well; the repository's own prefix test cases require
this. -/
def isNameByte (b : Nat) : Bool :=
  (0x41 ≤ b && b ≤ 0x5A) || (0x61 ≤ b && b ≤ 0x7A) ||
    (0x30 ≤ b && b ≤ 0x39) || b == 0x2D || b == 0x5F || b == 0x2E ||
    b == 0x3A || 0x80 ≤ b

/-- The backwards walk over the `spaces` stack at the top of `decodeName`:
adopt the first (nearest-scope) non-empty default namespace.  When every
entry is empty, or the stack is empty, the result is the empty string,
exactly as the Go loop leaves `space`. -/
def firstNonEmpty : List (List Nat) → List Nat
  | [] => []
  | s :: rest => if s ≠ [] then s else firstNonEmpty rest

/-- The backwards walk over the `prefixes` stack in `decodeName`: the
first non-empty mapping for the prefix wins; when none is found the
prefix string itself is kept (Go leaves `space` holding `rawFirst`). -/
def walkPrefixes (ps : List PrefixMap) (p : List Nat) : List Nat :=
  match ps with
  | [] => p
  | m :: rest => if lookupMap m p ≠ [] then lookupMap m p else walkPrefixes rest p

/-- The length-guarded pop performed (twice) by the deferred function of
`decodeEndElement`. -/
def popGuard {α : Type} (l : List α) : List α :=
  if l.isEmpty then l else l.tail

/-- The read loop of `decodeName` (`tokenizer.go` lines 265-297): consume
name bytes, switch to the second buffer after a colon, and on the first
non-name byte return the resolved `Name`, the terminating byte, the
`space != ""` flag (false once a separator was seen), and the unread
remainder of the input. -/
def nameLoop (ps : List PrefixMap) (space : List Nat) (foundSep : Bool)
    (rf rs : List Nat) : List Nat → Except XmlError (Name × Nat × Bool × List Nat)
  | [] => .error .eof
  | b :: rest =>
    if isNameByte b = false then
      if foundSep then
        .ok (⟨walkPrefixes ps rf, rs⟩, b, false, rest)
      else
        .ok (⟨space, rf⟩, b, !space.isEmpty, rest)
    else if b = 0x3A then
      nameLoop ps space true rf rs rest
    else if foundSep then
      nameLoop ps space true rf (rs ++ [b]) rest
    else
      nameLoop ps space false (rf ++ [b]) rs rest

/-- The quoted-value loop of `decodeAttr`: accumulate bytes until the
opening quote byte recurs. -/
def attrValueLoop (quote : Nat) (raw : List Nat) :
    List Nat → Except XmlError (List Nat × List Nat)
  | [] => .error .eof
  | b :: rest =>
    if b = quote then .ok (raw, rest) else attrValueLoop quote (raw ++ [b]) rest

/-- Model of `decodeAttr` (`tokenizer.go` lines 300-333), acting on the raw input
stream: decode a name in attribute mode starting from the byte `b`
already read, require `=` then a quote, then read the literal value. -/
def decodeAttrFn (ps : List PrefixMap) (b : Nat) (input : List Nat) :
    Except XmlError (Attr × List Nat) :=
  match nameLoop ps [] false (if b = 0 then [] else [b]) [] input with
  | .error e => .error e
  | .ok (name, sep, _, rest) =>
    if sep ≠ 0x3D then .error (.other "xml: bad attribute separator")
    else
      match rest with
      | [] => .error .eof
      | q :: rest' =>
        if q ≠ 0x27 ∧ q ≠ 0x22 then
          .error (.other "xml: expected quoted attribute value")
        else
          match attrValueLoop q [] rest' with
          | .error e => .error e
          | .ok (v, rest'') => .ok (⟨name, v⟩, rest'')

/-- The read loop of `decodeCharData`: accumulate bytes until a `<`,
which is left to the next token via `foundStart`. -/
def charDataLoop (buf : List Nat) : List Nat → Except XmlError (List Nat × List Nat)
  | [] => .error .eof
  | b :: rest =>
    if b = 0x3C then .ok (buf, rest) else charDataLoop (buf ++ [b]) rest

/-- The read loop of `decodeComment`: `found` is the `uint8` count of
pending dashes (hence the explicit `% 256`); a `>` with more than one
pending dash ends the comment, and any other byte flushes the pending
dashes literally before being appended. -/
def commentLoop (found : Nat) (comment : List Nat) :
    List Nat → Except XmlError (List Nat × List Nat)
  | [] => .error .eof
  | b :: rest =>
    if b = 0x2D then
      commentLoop ((found + 1) % 256) comment rest
    else if b = 0x3E ∧ found > 1 then
      .ok (comment, rest)
    else
      commentLoop 0 (comment ++ List.replicate found 0x2D ++ [b]) rest

/-- The read loop of `decodeDirective`: accumulate bytes until `>`. -/
def directiveLoop (dir : List Nat) : List Nat → Except XmlError (List Nat × List Nat)
  | [] => .error .eof
  | b :: rest =>
    if b = 0x3E then .ok (dir, rest) else directiveLoop (dir ++ [b]) rest

/-- The read loop of `decodeProcInst` (`tokenizer.go` lines 371-413).
A `?` sets both flags and continues; a `>` after a `?` ends the
instruction; the first whitespace byte ends the target phase silently;
every other byte falling through the switch is written to the target or,
once `foundSpace` holds, to the instruction --- erroring there when the
target is still empty, and flushing a pending `?` first. -/
def procInstLoop (foundSpace foundEnd : Bool) (target inst : List Nat) :
    List Nat → Except XmlError ((List Nat × List Nat) × List Nat)
  | [] => .error .eof
  | b :: rest =>
    if b = 0x3F then
      procInstLoop true true target inst rest
    else if b = 0x3E ∧ foundEnd then
      .ok ((target, inst), rest)
    else if isSpace b ∧ foundSpace = false then
      procInstLoop true foundEnd target inst rest
    else if b = 0x3E ∨ foundSpace then
      if target = [] then .error (.syntaxError "xml: expected target name after <?")
      else
        procInstLoop (if b = 0x3E then true else foundSpace) false target
          ((if foundEnd then inst ++ [0x3F] else inst) ++ [b]) rest
    else
      procInstLoop foundSpace foundEnd (target ++ [b]) inst rest

/-- The `xmlns` byte string. -/
def xmlnsBytes : List Nat := [0x78, 0x6D, 0x6C, 0x6E, 0x73]

/-- The separator/attribute loop of `decodeStartElement` (`tokenizer.go`
lines 175-222).  The first argument is fuel: every iteration consumes at
least one byte of `input`, so fuel `input.length + 1` always suffices and
the `outOfFuel` arm is unreachable from `decodeStartElement`.  Whitespace
separators are skipped; `/` records the pending self-close name and
requires an immediate `>`; `>` ends the tag; any other byte starts an
attribute, after which the next separator byte is read, attributes with a
non-empty local name are appended, and the two `xmlns` bookkeeping cases
update the element name, the `def` flag and the top stack frames. -/
def startElemLoop (t : Tokenizer) :
    Nat → Name → Bool → List Attr → List PrefixMap → List (List Nat) →
      Nat → List Nat → Except XmlError (Tok × Tokenizer)
  | 0, _, _, _, _, _, _, _ => .error .outOfFuel
  | fuel + 1, name, def_, attrs, ps, sps, sep, input =>
    if isSpace sep then
      match input with
      | [] => .error .eof
      | b :: rest => startElemLoop t fuel name def_ attrs ps sps b rest
    else if sep = 0x2F then
      match input with
      | [] => .error .eof
      | b :: rest =>
        if b ≠ 0x3E then .error (.other "xml: expected > to end the element")
        else
          .ok (.startElement name (some attrs),
            { t with input := rest, selfClose := some name,
                     prefixes := ps, spaces := sps })
    else if sep = 0x3E then
      .ok (.startElement name (some attrs),
        { t with input := input, prefixes := ps, spaces := sps })
    else
      match decodeAttrFn ps sep input with
      | .error e => .error e
      | .ok (a, rest) =>
        match rest with
        | [] => .error .eof
        | sep' :: rest' =>
          let attrs' := if a.AName.Local ≠ [] then attrs ++ [a] else attrs
          if a.AName.Space = [] ∧ a.AName.Local = xmlnsBytes then
            startElemLoop t fuel ⟨a.Value, name.Local⟩ true attrs' ps
              (a.Value :: sps.tail) sep' rest'
          else if a.AName.Space = xmlnsBytes then
            startElemLoop t fuel
              (if def_ = false ∧ name.Space ≠ [] ∧ name.Space = a.AName.Local
               then ⟨a.Value, name.Local⟩ else name)
              def_ attrs' (insertMap (ps.headD []) a.AName.Local a.Value :: ps.tail)
              sps sep' rest'
          else
            startElemLoop t fuel name def_ attrs' ps sps sep' rest'

/-- Model of `decodeStartElement`: push an empty frame on each namespace stack,
decode the element name in non-attribute mode starting from the byte `b`
already read, then run the separator/attribute loop. -/
def decodeStartElement (t : Tokenizer) (b : Nat) : Except XmlError (Tok × Tokenizer) :=
  let sps := [] :: t.spaces
  let ps := ([] : PrefixMap) :: t.prefixes
  match nameLoop ps (firstNonEmpty sps) false (if b = 0 then [] else [b]) [] t.input with
  | .error e => .error e
  | .ok (name, sep, def_, rest) =>
    startElemLoop t (rest.length + 1) name def_ [] ps sps sep rest

/-- Model of `decodeEndElement`: decode a name in non-attribute mode (with no
initial byte) and pop both namespace stacks, each pop guarded by a length
check.  (The Go pops sit in a deferred function and so also run on the
error path; the model discards the state on errors, which no theorem
below observes.) -/
def decodeEndElement (t : Tokenizer) : Except XmlError (Tok × Tokenizer) :=
  match nameLoop t.prefixes (firstNonEmpty t.spaces) false [] [] t.input with
  | .error e => .error e
  | .ok (name, _, _, rest) =>
    .ok (.endElement name,
      { t with input := rest, prefixes := popGuard t.prefixes,
               spaces := popGuard t.spaces })

/-- Model of `decodeCharData`: accumulate until `<`, then hand the `<` to the next
token via `foundStart`. -/
def decodeCharData (t : Tokenizer) (buf : List Nat) : Except XmlError (Tok × Tokenizer) :=
  match charDataLoop buf t.input with
  | .error e => .error e
  | .ok (buf', rest) => .ok (.charData buf', { t with input := rest, foundStart := true })

/-- Model of `decodeComment`, entered after `<!--` with an empty buffer. -/
def decodeComment (t : Tokenizer) : Except XmlError (Tok × Tokenizer) :=
  match commentLoop 0 [] t.input with
  | .error e => .error e
  | .ok (c, rest) => .ok (.comment c, { t with input := rest })

/-- Model of `decodeDirective`, entered after `<!` with the first content byte. -/
def decodeDirective (t : Tokenizer) (dir : List Nat) : Except XmlError (Tok × Tokenizer) :=
  match directiveLoop dir t.input with
  | .error e => .error e
  | .ok (d, rest) => .ok (.directive d, { t with input := rest })

/-- Model of `decodeProcInst`, entered after `<?`. -/
def decodeProcInst (t : Tokenizer) : Except XmlError (Tok × Tokenizer) :=
  match procInstLoop false false [] [] t.input with
  | .error e => .error e
  | .ok ((target, inst), rest) => .ok (.procInst target inst, { t with input := rest })

/-- The dispatch of `Token` after the first byte `b` is available
(`tokenizer.go` lines 104-161): a non-`<` byte starts character data; a
`<` commits to a tag, after which end-of-input on the next reads is the
"early EOF" syntax error, `<!-` must become `<!--`, and the `!`, `?`, `/`
and default cases delegate to the sub-decoders. -/
def tokenDispatch (t : Tokenizer) (b : Nat) : Except XmlError (Tok × Tokenizer) :=
  if b ≠ 0x3C then decodeCharData t [b]
  else
    match t.input with
    | [] => .error (.syntaxError "early EOF")
    | b2 :: rest =>
      if b2 = 0x21 then
        match rest with
        | [] => .error (.syntaxError "early EOF")
        | b3 :: rest3 =>
          if b3 = 0x2D then
            match rest3 with
            | [] => .error (.syntaxError "early EOF")
            | b4 :: rest4 =>
              if b4 = 0x2D then decodeComment { t with input := rest4 }
              else .error (.syntaxError "invalid sequence <!- not part of <!--")
          else decodeDirective { t with input := rest3 } [b3]
      else if b2 = 0x3F then decodeProcInst { t with input := rest }
      else if b2 = 0x2F then decodeEndElement { t with input := rest }
      else decodeStartElement { t with input := rest } b2

/-- Model of `Tokenizer.Token` (`tokenizer.go` lines 86-162): first serve a pending
self-close end element (and only clear `selfClose`; the namespace stacks
are *not* touched here), then obtain a byte either from `foundStart` or
from the reader --- end-of-input on that very first read is returned
verbatim --- and dispatch on it. -/
def Tokenizer.Token (t : Tokenizer) : Except XmlError (Tok × Tokenizer) :=
  match t.selfClose with
  | some name => .ok (.endElement name, { t with selfClose := none })
  | none =>
    if t.foundStart then tokenDispatch { t with foundStart := false } 0x3C
    else
      match t.input with
      | [] => .error .eof
      | b :: rest => tokenDispatch { t with input := rest } b

/-- The CDATA start marker constant. -/
def cdataStartL : List Nat := [0x3C, 0x21, 0x5B, 0x43, 0x44, 0x41, 0x54, 0x41, 0x5B]

/-- The CDATA end marker constant. -/
def cdataEndL : List Nat := [0x5D, 0x5D, 0x3E]

/-- Model of `bytes.Index`: the first position at which `pat` occurs as a
contiguous sub-slice, or `none` (Go's `-1`). -/
def indexOfSub : List Nat → List Nat → Option Nat
  | l, pat =>
    if pat.isPrefixOf l then some 0
    else
      match l with
      | [] => none
      | _ :: rest => (indexOfSub rest pat).map (· + 1)

/-- Model of `bytes.IndexByte`: the first position of byte `b`, or `none`. -/
def findByte (b : Nat) : List Nat → Option Nat
  | [] => none
  | c :: rest => if c = b then some 0 else (findByte b rest).map (· + 1)

/-- Model of `splitCData`: everything up to and including the first `]]>`, the
whole remainder at end of input, or a request for more data. -/
def splitCData (data : List Nat) (atEOF : Bool) :
    Nat × Option (List Nat) × Option XmlError :=
  match indexOfSub data cdataEndL with
  | none => if atEOF then (data.length, some data, none) else (0, none, none)
  | some idx =>
    (idx + cdataEndL.length, some (data.take (idx + cdataEndL.length)), none)

/-- Model of `splitCharData`: everything strictly before the first `<` (which is
left in the buffer), the whole remainder at end of input, or a request
for more data. -/
def splitCharData (data : List Nat) (atEOF : Bool) :
    Nat × Option (List Nat) × Option XmlError :=
  match findByte 0x3C data with
  | none => if atEOF then (data.length, some data, none) else (0, none, none)
  | some idx => (idx, some (data.take idx), none)

/-- The scan loop of `splitOther`: position of the first `>` outside
single or double quotes, carrying the `startQuote` state (0 when not in
quoted mode), or `none` when no such `>` exists. -/
def splitOtherAux : Nat → List Nat → Option Nat
  | _, [] => none
  | sq, b :: rest =>
    if sq ≠ 0 then
      if b = sq then (splitOtherAux 0 rest).map (· + 1)
      else (splitOtherAux sq rest).map (· + 1)
    else if b = 0x22 ∨ b = 0x27 then (splitOtherAux b rest).map (· + 1)
    else if b = 0x3E then some 0
    else (splitOtherAux 0 rest).map (· + 1)

/-- Model of `splitOther`: the token ends at the first unquoted `>` inclusive;
otherwise the whole remainder at end of input, or a request for more
data.  It never produces an error. -/
def splitOther (data : List Nat) (atEOF : Bool) :
    Nat × Option (List Nat) × Option XmlError :=
  match splitOtherAux 0 data with
  | some i => (i + 1, some (data.take (i + 1)), none)
  | none => if atEOF then (data.length, some data, none) else (0, none, none)

/-- Model of `Split`: empty input at end of input reports `io.EOF`; a CDATA start
delegates to `splitCData`; otherwise the dispatch reads `data[0]`, which
on an empty slice is an out-of-bounds access (a Go runtime panic),
modelled as `none`; a non-`<` first byte delegates to `splitCharData`
and a `<` to `splitOther`. -/
def Split (data : List Nat) (atEOF : Bool) :
    Option (Nat × Option (List Nat) × Option XmlError) :=
  if data.isEmpty ∧ atEOF then some (0, none, some .eof)
  else if cdataStartL.isPrefixOf data then some (splitCData data atEOF)
  else if data.isEmpty then none
  else if data.headD 0 ≠ 0x3C then some (splitCharData data atEOF)
  else some (splitOther data atEOF)

/-- A driver that repeatedly applies `Split` with `atEOF = true`,
advancing the buffer by the returned advance and collecting the emitted
tokens; `none` on a panic, an error, a missing token or lack of fuel.
Fuel `data.length` suffices because every emitted token advances by at
least one byte. -/
def driveSplit : Nat → List Nat → Option (List (List Nat))
  | _, [] => some []
  | 0, _ :: _ => none
  | fuel + 1, b :: rest =>
    match Split (b :: rest) true with
    | some (adv, some tok, none) =>
      if adv = 0 then none
      else (driveSplit fuel ((b :: rest).drop adv)).map (tok :: ·)
    | _ => none

/-- The quote-state transition of spec section 4.1, rule 4, written from
the spec's words: entering `"` or `'` enters quoted mode, only the
matching quote byte exits it, and every other byte leaves the state
unchanged.  State 0 is unquoted.  This is the reference against which
the code's fused scan `splitOtherAux` is proved correct. -/
def specQuoteStep (sq b : Nat) : Nat :=
  if sq ≠ 0 then (if b = sq then 0 else sq)
  else if b = 0x22 ∨ b = 0x27 then b
  else 0

/-- The quote state after consuming a list of bytes, starting unquoted. -/
def specQuoteState (l : List Nat) : Nat := l.foldl specQuoteStep 0

/-! ### Helper lemmas -/

/-- A name byte is none of the structural delimiter bytes. -/
theorem nameByte_excludes (b : Nat) (h : isNameByte b = true) :
    b ≠ 0x21 ∧ b ≠ 0x3F ∧ b ≠ 0x2F ∧ b ≠ 0x3C ∧ b ≠ 0x3E ∧ b ≠ 0x3D ∧
      b ≠ 0x22 ∧ b ≠ 0x27 ∧ b ≠ 0 ∧ isSpace b = false := by
  simp only [isNameByte, Bool.or_eq_true, decide_eq_true_eq, Bool.and_eq_true,
    beq_iff_eq] at h
  simp only [isSpace, ne_eq, Bool.or_eq_false_iff, beq_eq_false_iff_ne]
  omega

/-- Reading a run of name bytes without a colon accumulates them into the
first buffer and stops at the first non-name byte. -/
theorem nameLoop_scan (ps : List PrefixMap) (space : List Nat) (X : List Nat)
    (sep : Nat) (rest : List Nat) (rf : List Nat)
    (hX : ∀ b ∈ X, isNameByte b = true ∧ b ≠ 0x3A)
    (hsep : isNameByte sep = false) :
    nameLoop ps space false rf [] (X ++ sep :: rest) =
      .ok (⟨space, rf ++ X⟩, sep, !space.isEmpty, rest) := by
  induction X generalizing rf with
  | nil => simp [nameLoop, hsep]
  | cons x xs ih =>
    obtain ⟨hx1, hx2⟩ := hX x (List.mem_cons_self x xs)
    have step := ih (rf ++ [x]) (fun b hb => hX b (List.mem_cons_of_mem x hb))
    simp only [List.cons_append, nameLoop, hx1, Bool.true_eq_false, if_false,
      if_neg hx2, Bool.false_eq_true, List.append_eq]
    rw [show rf ++ x :: xs = (rf ++ [x]) ++ xs by simp]
    exact step

/-- Reading a run of name bytes up to a colon accumulates them into the
first buffer and switches to separator mode. -/
theorem nameLoop_scan_colon (ps : List PrefixMap) (space : List Nat)
    (P l rf : List Nat) (hP : ∀ b ∈ P, isNameByte b = true ∧ b ≠ 0x3A) :
    nameLoop ps space false rf [] (P ++ 0x3A :: l) =
      nameLoop ps space true (rf ++ P) [] l := by
  induction P generalizing rf with
  | nil => simp [nameLoop, show isNameByte 0x3A = true from rfl]
  | cons x xs ih =>
    obtain ⟨hx1, hx2⟩ := hP x (List.mem_cons_self x xs)
    have step := ih (rf ++ [x]) (fun b hb => hP b (List.mem_cons_of_mem x hb))
    simp only [List.cons_append, nameLoop, hx1, Bool.true_eq_false, if_false,
      if_neg hx2, Bool.false_eq_true, List.append_eq]
    rw [show rf ++ x :: xs = (rf ++ [x]) ++ xs by simp]
    exact step

/-- After the colon, a run of name bytes goes into the second buffer, and
the first non-name byte returns the prefix resolved through the stack. -/
theorem nameLoop_scan_sep (ps : List PrefixMap) (space : List Nat)
    (L : List Nat) (sep : Nat) (rest rf rs : List Nat)
    (hL : ∀ b ∈ L, isNameByte b = true ∧ b ≠ 0x3A)
    (hsep : isNameByte sep = false) :
    nameLoop ps space true rf rs (L ++ sep :: rest) =
      .ok (⟨walkPrefixes ps rf, rs ++ L⟩, sep, false, rest) := by
  induction L generalizing rs with
  | nil => simp [nameLoop, hsep]
  | cons x xs ih =>
    obtain ⟨hx1, hx2⟩ := hL x (List.mem_cons_self x xs)
    have step := ih (rs ++ [x]) (fun b hb => hL b (List.mem_cons_of_mem x hb))
    simp only [List.cons_append, nameLoop, hx1, Bool.true_eq_false, if_false,
      if_neg hx2, Bool.false_eq_true, List.append_eq]
    rw [show rs ++ x :: xs = (rs ++ [x]) ++ xs by simp]
    exact step

/-- When no frame of the stack holds a non-empty mapping for the prefix,
the walk returns the prefix string itself. -/
theorem walkPrefixes_no_match (ps : List PrefixMap) (p : List Nat)
    (h : ∀ m ∈ ps, lookupMap m p = []) : walkPrefixes ps p = p := by
  induction ps with
  | nil => rfl
  | cons m rest ih =>
    have hm := h m (List.mem_cons_self m rest)
    simp only [walkPrefixes, hm, ne_eq, not_true_eq_false, if_false]
    exact ih fun m' hm' => h m' (List.mem_cons_of_mem m hm')

/-- A run of `n` dashes advances the pending-dash counter by `n`,
modulo 256. -/
theorem commentLoop_dashes : ∀ (n f : Nat) (acc l : List Nat), f < 256 →
    commentLoop f acc (List.replicate n 0x2D ++ l) =
      commentLoop ((f + n) % 256) acc l
  | 0, f, acc, l, hf => by
    simp [Nat.mod_eq_of_lt hf]
  | n + 1, f, acc, l, hf => by
    rw [List.replicate_succ, List.cons_append]
    have step : commentLoop f acc (0x2D :: (List.replicate n 0x2D ++ l)) =
        commentLoop ((f + 1) % 256) acc (List.replicate n 0x2D ++ l) := by
      simp [commentLoop]
    rw [step, commentLoop_dashes n ((f + 1) % 256) acc l (Nat.mod_lt _ (by omega))]
    congr 1
    omega

/-! ### Claim theorems -/

/-- C5: for every self-closing start tag at the head of the input, one
`Token()` call emits exactly one `StartElement` with that name and an
empty, non-absent (`some []`) attribute list, records the name as the
pending self-close, and leaves the rest of the reader untouched; the
immediately following `Token()` call returns exactly one `EndElement`
with the same name without reading any further bytes. -/
theorem selfclosing_start_pair (X rest : List Nat) (ps : List PrefixMap)
    (sps : List (List Nat)) (hne : X ≠ [])
    (hX : ∀ b ∈ X, isNameByte b = true ∧ b ≠ 0x3A) :
    Tokenizer.Token ⟨0x3C :: (X ++ 0x2F :: 0x3E :: rest), false, none, ps, sps⟩ =
      .ok (.startElement ⟨firstNonEmpty sps, X⟩ (some []),
        ⟨rest, false, some ⟨firstNonEmpty sps, X⟩, [] :: ps, [] :: sps⟩) ∧
    Tokenizer.Token ⟨rest, false, some ⟨firstNonEmpty sps, X⟩, [] :: ps, [] :: sps⟩ =
      .ok (.endElement ⟨firstNonEmpty sps, X⟩,
        ⟨rest, false, none, [] :: ps, [] :: sps⟩) := by
  obtain ⟨x, xs, rfl⟩ := List.exists_cons_of_ne_nil hne
  obtain ⟨h21, h3F, h2F, h3C, h3E, _, _, _, h0, _⟩ :=
    nameByte_excludes x (hX x (List.mem_cons_self x xs)).1
  refine ⟨?_, by simp [Tokenizer.Token]⟩
  have hfne : firstNonEmpty ([] :: sps) = firstNonEmpty sps := by
    simp [firstNonEmpty]
  have hname := nameLoop_scan ([] :: ps) (firstNonEmpty ([] :: sps)) xs 0x2F
    (0x3E :: rest) [x] (fun b hb => hX b (List.mem_cons_of_mem x hb)) rfl
  rw [hfne] at hname
  simp only [Tokenizer.Token, tokenDispatch, decodeStartElement, List.cons_append,
    if_neg h21, if_neg h3F, if_neg h2F, if_neg h0, ne_eq, not_true_eq_false,
    if_false, hname, List.singleton_append, List.length_cons, startElemLoop,
    show isSpace 0x2F = false from rfl, Bool.false_eq_true, hfne]
  simp

/-- C10: an end tag arriving while both namespace stacks are empty is
decoded and returned without error, and the length-guarded pops leave
both stacks empty: no underflow occurs. -/
theorem endElement_guarded_pops (X rest : List Nat)
    (hX : ∀ b ∈ X, isNameByte b = true ∧ b ≠ 0x3A) :
    Tokenizer.Token ⟨0x3C :: 0x2F :: (X ++ 0x3E :: rest), false, none, [], []⟩ =
      .ok (.endElement ⟨[], X⟩, ⟨rest, false, none, [], []⟩) := by
  have hname := nameLoop_scan ([] : List PrefixMap) [] X 0x3E rest [] hX rfl
  simp only [Tokenizer.Token, tokenDispatch, decodeEndElement, firstNonEmpty,
    List.nil_append] at *
  simp [hname, popGuard]

/-- C5 witness: the self-close pair on the concrete input `<a/>`. -/
theorem selfclosing_start_pair_witness :
    Tokenizer.Token ⟨[0x3C, 0x61, 0x2F, 0x3E], false, none, [], []⟩ =
      .ok (.startElement ⟨[], [0x61]⟩ (some []),
        ⟨[], false, some ⟨[], [0x61]⟩, [[]], [[]]⟩) ∧
    Tokenizer.Token ⟨[], false, some ⟨[], [0x61]⟩, [[]], [[]]⟩ =
      .ok (.endElement ⟨[], [0x61]⟩, ⟨[], false, none, [[]], [[]]⟩) :=
  selfclosing_start_pair [0x61] [] [] [] (by decide) (by decide)

/-- C10 witness: the end tag `</a>` as the very first token. -/
theorem endElement_guarded_pops_witness :
    Tokenizer.Token ⟨[0x3C, 0x2F, 0x61, 0x3E], false, none, [], []⟩ =
      .ok (.endElement ⟨[], [0x61]⟩, ⟨[], false, none, [], []⟩) :=
  endElement_guarded_pops [0x61] [] (by decide)

/-- C3 (amended): when the name contains a prefix and no frame of the
prefix stack holds a non-empty mapping for it, the returned Space is the
prefix string itself --- not the default namespace adopted at entry and
not the empty string --- in element mode and attribute mode alike (the
`space` argument below is arbitrary). -/
theorem unresolved_prefix_kept (ps : List PrefixMap) (space : List Nat)
    (P L : List Nat) (sep : Nat) (rest : List Nat)
    (hP : ∀ b ∈ P, isNameByte b = true ∧ b ≠ 0x3A)
    (hL : ∀ b ∈ L, isNameByte b = true ∧ b ≠ 0x3A)
    (hsep : isNameByte sep = false)
    (hmap : ∀ m ∈ ps, lookupMap m P = []) :
    nameLoop ps space false [] [] (P ++ 0x3A :: (L ++ sep :: rest)) =
      .ok (⟨P, L⟩, sep, false, rest) := by
  rw [nameLoop_scan_colon ps space P _ [] hP, List.nil_append,
    nameLoop_scan_sep ps space L sep rest P [] hL hsep,
    walkPrefixes_no_match ps P hmap, List.nil_append]

/-- C3 witness: prefix `g`, local `t`, terminator `=`, one empty frame on
the prefix stack. -/
theorem unresolved_prefix_kept_witness :
    nameLoop [[]] [] false [] [] ([0x67] ++ 0x3A :: ([0x74] ++ 0x3D :: [])) =
      .ok (⟨[0x67], [0x74]⟩, 0x3D, false, []) :=
  unresolved_prefix_kept [[]] [] [0x67] [0x74] 0x3D []
    (by decide) (by decide) (by decide) (by decide)

/-- C3 counterexample: on `<baz xmlns="g" g:test="yes">` the attribute
`g:test` resolves with Space `"g"` (the prefix itself), not the empty
string claimed: prefix `g` is undeclared at the lookup site, and
`decodeName` keeps the raw prefix in that case. -/
theorem gtest_attr_space_not_empty :
    Tokenizer.Token ⟨[0x3C, 0x62, 0x61, 0x7A, 0x20, 0x78, 0x6D, 0x6C, 0x6E, 0x73,
        0x3D, 0x22, 0x67, 0x22, 0x20, 0x67, 0x3A, 0x74, 0x65, 0x73, 0x74, 0x3D,
        0x22, 0x79, 0x65, 0x73, 0x22, 0x3E], false, none, [], []⟩ =
      .ok (.startElement ⟨[0x67], [0x62, 0x61, 0x7A]⟩
        (some [⟨⟨[], xmlnsBytes⟩, [0x67]⟩,
               ⟨⟨[0x67], [0x74, 0x65, 0x73, 0x74]⟩, [0x79, 0x65, 0x73]⟩]),
        ⟨[], false, none, [[]], [[0x67]]⟩) ∧
    ([0x67] : List Nat) ≠ [] := by
  exact ⟨rfl, by decide⟩

/-- C1: evaluation of the model at the failing input
`<a xmlns="u"/><b/>`.  The first call returns the StartElement for `a`
and pushes one frame on each stack; the second call serves the pending
self-close EndElement but leaves both stacks one deep (the claimed pops
do not happen: `Token` only clears `selfClose`); consequently the third
call resolves the sibling `b` in the leaked default namespace `"u"`. -/
theorem selfclose_no_pop :
    Tokenizer.Token ⟨[0x3C, 0x61, 0x20, 0x78, 0x6D, 0x6C, 0x6E, 0x73, 0x3D, 0x22,
        0x75, 0x22, 0x2F, 0x3E, 0x3C, 0x62, 0x2F, 0x3E], false, none, [], []⟩ =
      .ok (.startElement ⟨[0x75], [0x61]⟩ (some [⟨⟨[], xmlnsBytes⟩, [0x75]⟩]),
        ⟨[0x3C, 0x62, 0x2F, 0x3E], false, some ⟨[0x75], [0x61]⟩, [[]], [[0x75]]⟩) ∧
    Tokenizer.Token ⟨[0x3C, 0x62, 0x2F, 0x3E], false, some ⟨[0x75], [0x61]⟩,
        [[]], [[0x75]]⟩ =
      .ok (.endElement ⟨[0x75], [0x61]⟩,
        ⟨[0x3C, 0x62, 0x2F, 0x3E], false, none, [[]], [[0x75]]⟩) ∧
    Tokenizer.Token ⟨[0x3C, 0x62, 0x2F, 0x3E], false, none, [[]], [[0x75]]⟩ =
      .ok (.startElement ⟨[0x75], [0x62]⟩ (some []),
        ⟨[], false, some ⟨[0x75], [0x62]⟩, [[], []], [[], [0x75]]⟩) ∧
    ([[0x75]] : List (List Nat)).length ≠ 0 :=
  ⟨rfl, rfl, rfl, by decide⟩

/-- Character-data accumulation can only fail with verbatim end-of-input. -/
theorem charDataLoop_err : ∀ (X buf : List Nat) (e : XmlError),
    charDataLoop buf X = .error e → e = .eof := by
  intro X
  induction X with
  | nil =>
    intro buf e h
    simp only [charDataLoop, Except.error.injEq] at h
    exact h.symm
  | cons b rest ih =>
    intro buf e h
    simp only [charDataLoop] at h
    by_cases hb : b = 0x3C
    · rw [if_pos hb] at h
      simp at h
    · rw [if_neg hb] at h
      exact ih _ _ h

/-- Character data whose remaining bytes hold no `<` runs to the end of
the input and reports verbatim end-of-input. -/
theorem charDataLoop_no_lt : ∀ (X buf : List Nat), (∀ c ∈ X, c ≠ 0x3C) →
    charDataLoop buf X = .error .eof := by
  intro X
  induction X with
  | nil => intro buf _; rfl
  | cons b rest ih =>
    intro buf hX
    simp only [charDataLoop, if_neg (hX b (List.mem_cons_self b rest))]
    exact ih _ fun c hc => hX c (List.mem_cons_of_mem b hc)

/-- Name accumulation can only fail with verbatim end-of-input. -/
theorem nameLoop_err : ∀ (X : List Nat) (ps : List PrefixMap) (space : List Nat)
    (fs : Bool) (rf rs : List Nat) (e : XmlError),
    nameLoop ps space fs rf rs X = .error e → e = .eof := by
  intro X
  induction X with
  | nil =>
    intro ps space fs rf rs e h
    simp only [nameLoop, Except.error.injEq] at h
    exact h.symm
  | cons b rest ih =>
    intro ps space fs rf rs e h
    simp only [nameLoop] at h
    by_cases h1 : isNameByte b = false
    · rw [if_pos h1] at h
      split at h <;> simp at h
    · rw [if_neg h1] at h
      by_cases h2 : b = 0x3A
      · rw [if_pos h2] at h
        exact ih _ _ _ _ _ _ h
      · rw [if_neg h2] at h
        by_cases h3 : fs = true
        · rw [if_pos h3] at h
          exact ih _ _ _ _ _ _ h
        · rw [if_neg h3] at h
          exact ih _ _ _ _ _ _ h

/-- Attribute-value accumulation can only fail with verbatim
end-of-input. -/
theorem attrValueLoop_err : ∀ (X : List Nat) (q : Nat) (raw : List Nat)
    (e : XmlError), attrValueLoop q raw X = .error e → e = .eof := by
  intro X
  induction X with
  | nil =>
    intro q raw e h
    simp only [attrValueLoop, Except.error.injEq] at h
    exact h.symm
  | cons b rest ih =>
    intro q raw e h
    simp only [attrValueLoop] at h
    by_cases hb : b = q
    · rw [if_pos hb] at h
      simp at h
    · rw [if_neg hb] at h
      exact ih _ _ _ h

/-- Comment accumulation can only fail with verbatim end-of-input. -/
theorem commentLoop_err : ∀ (X : List Nat) (f : Nat) (acc : List Nat)
    (e : XmlError), commentLoop f acc X = .error e → e = .eof := by
  intro X
  induction X with
  | nil =>
    intro f acc e h
    simp only [commentLoop, Except.error.injEq] at h
    exact h.symm
  | cons b rest ih =>
    intro f acc e h
    simp only [commentLoop] at h
    by_cases h1 : b = 0x2D
    · rw [if_pos h1] at h
      exact ih _ _ _ h
    · rw [if_neg h1] at h
      by_cases h2 : b = 0x3E ∧ f > 1
      · rw [if_pos h2] at h
        simp at h
      · rw [if_neg h2] at h
        exact ih _ _ _ h

/-- Directive accumulation can only fail with verbatim end-of-input. -/
theorem directiveLoop_err : ∀ (X dir : List Nat) (e : XmlError),
    directiveLoop dir X = .error e → e = .eof := by
  intro X
  induction X with
  | nil =>
    intro dir e h
    simp only [directiveLoop, Except.error.injEq] at h
    exact h.symm
  | cons b rest ih =>
    intro dir e h
    simp only [directiveLoop] at h
    by_cases hb : b = 0x3E
    · rw [if_pos hb] at h
      simp at h
    · rw [if_neg hb] at h
      exact ih _ _ h

/-- Processing-instruction accumulation fails only with verbatim
end-of-input or the empty-target syntax error --- never "early EOF". -/
theorem procInstLoop_err : ∀ (X : List Nat) (fs fe : Bool) (tg ins : List Nat)
    (e : XmlError), procInstLoop fs fe tg ins X = .error e →
      e = .eof ∨ e = .syntaxError "xml: expected target name after <?" := by
  intro X
  induction X with
  | nil =>
    intro fs fe tg ins e h
    simp only [procInstLoop, Except.error.injEq] at h
    exact Or.inl h.symm
  | cons b rest ih =>
    intro fs fe tg ins e h
    simp only [procInstLoop] at h
    by_cases h1 : b = 0x3F
    · rw [if_pos h1] at h
      exact ih _ _ _ _ _ h
    · rw [if_neg h1] at h
      by_cases h2 : b = 0x3E ∧ fe = true
      · rw [if_pos h2] at h
        simp at h
      · rw [if_neg h2] at h
        by_cases h3 : isSpace b = true ∧ fs = false
        · rw [if_pos h3] at h
          exact ih _ _ _ _ _ h
        · rw [if_neg h3] at h
          by_cases h4 : b = 0x3E ∨ fs = true
          · rw [if_pos h4] at h
            by_cases h5 : tg = []
            · rw [if_pos h5] at h
              simp only [Except.error.injEq] at h
              exact Or.inr h.symm
            · rw [if_neg h5] at h
              exact ih _ _ _ _ _ h
          · rw [if_neg h4] at h
            exact ih _ _ _ _ _ h

/-- Attribute decoding never produces the "early EOF" error. -/
theorem decodeAttrFn_err (ps : List PrefixMap) (b : Nat) (input : List Nat)
    (e : XmlError) (h : decodeAttrFn ps b input = .error e) :
    e ≠ .syntaxError "early EOF" := by
  unfold decodeAttrFn at h
  split at h
  · rename_i e' heq
    obtain rfl : e' = e := by simpa using h
    have he := nameLoop_err _ _ _ _ _ _ _ heq
    subst he
    simp
  · rename_i name sep fl rest heq
    by_cases hs : sep ≠ 0x3D
    · rw [if_pos hs] at h
      obtain rfl : XmlError.other "xml: bad attribute separator" = e := by
        simpa using h
      simp
    · rw [if_neg hs] at h
      split at h
      · obtain rfl : XmlError.eof = e := by simpa using h
        simp
      · rename_i q rest'
        by_cases hq : q ≠ 0x27 ∧ q ≠ 0x22
        · rw [if_pos hq] at h
          obtain rfl : XmlError.other "xml: expected quoted attribute value" = e := by
            simpa using h
          simp
        · rw [if_neg hq] at h
          split at h
          · rename_i e' heq3
            obtain rfl : e' = e := by simpa using h
            have he := attrValueLoop_err _ _ _ _ heq3
            subst he
            simp
          · simp at h

/-- The start-element separator/attribute loop never produces the
"early EOF" error. -/
theorem startElemLoop_err : ∀ (fuel : Nat) (t : Tokenizer) (nm : Name) (d : Bool)
    (attrs : List Attr) (ps : List PrefixMap) (sps : List (List Nat)) (sep : Nat)
    (input : List Nat) (e : XmlError),
    startElemLoop t fuel nm d attrs ps sps sep input = .error e →
      e ≠ .syntaxError "early EOF" := by
  intro fuel
  induction fuel with
  | zero =>
    intro t nm d attrs ps sps sep input e h
    obtain rfl : XmlError.outOfFuel = e := by
      simpa [startElemLoop] using h
    simp
  | succ fuel ih =>
    intro t nm d attrs ps sps sep input e h
    simp only [startElemLoop] at h
    by_cases h1 : isSpace sep = true
    · rw [if_pos h1] at h
      split at h
      · obtain rfl : XmlError.eof = e := by simpa using h
        simp
      · exact ih _ _ _ _ _ _ _ _ _ h
    · rw [if_neg h1] at h
      by_cases h2 : sep = 0x2F
      · rw [if_pos h2] at h
        split at h
        · obtain rfl : XmlError.eof = e := by simpa using h
          simp
        · rename_i b2 rest2
          by_cases hb : b2 ≠ 0x3E
          · rw [if_pos hb] at h
            obtain rfl : XmlError.other "xml: expected > to end the element" = e := by
              simpa using h
            simp
          · rw [if_neg hb] at h
            simp at h
      · rw [if_neg h2] at h
        by_cases h3 : sep = 0x3E
        · rw [if_pos h3] at h
          simp at h
        · rw [if_neg h3] at h
          split at h
          · rename_i e' heq
            obtain rfl : e' = e := by simpa using h
            exact decodeAttrFn_err _ _ _ _ heq
          · rename_i a rest heq
            split at h
            · obtain rfl : XmlError.eof = e := by simpa using h
              simp
            · rename_i sep' rest'
              by_cases c1 : a.AName.Space = [] ∧ a.AName.Local = xmlnsBytes
              · rw [if_pos c1] at h
                exact ih _ _ _ _ _ _ _ _ _ h
              · rw [if_neg c1] at h
                by_cases c2 : a.AName.Space = xmlnsBytes
                · rw [if_pos c2] at h
                  exact ih _ _ _ _ _ _ _ _ _ h
                · rw [if_neg c2] at h
                  exact ih _ _ _ _ _ _ _ _ _ h

/-- The character-data sub-decoder can only fail with verbatim
end-of-input. -/
theorem decodeCharData_err (t : Tokenizer) (buf : List Nat) (e : XmlError)
    (h : decodeCharData t buf = .error e) : e = .eof := by
  unfold decodeCharData at h
  split at h
  · rename_i e' heq
    obtain rfl : e' = e := by simpa using h
    exact charDataLoop_err _ _ _ heq
  · simp at h

/-- The comment sub-decoder can only fail with verbatim end-of-input. -/
theorem decodeComment_err (t : Tokenizer) (e : XmlError)
    (h : decodeComment t = .error e) : e = .eof := by
  unfold decodeComment at h
  split at h
  · rename_i e' heq
    obtain rfl : e' = e := by simpa using h
    exact commentLoop_err _ _ _ _ heq
  · simp at h

/-- The directive sub-decoder can only fail with verbatim end-of-input. -/
theorem decodeDirective_err (t : Tokenizer) (dir : List Nat) (e : XmlError)
    (h : decodeDirective t dir = .error e) : e = .eof := by
  unfold decodeDirective at h
  split at h
  · rename_i e' heq
    obtain rfl : e' = e := by simpa using h
    exact directiveLoop_err _ _ _ heq
  · simp at h

/-- The processing-instruction sub-decoder fails only with verbatim
end-of-input or the empty-target error. -/
theorem decodeProcInst_err (t : Tokenizer) (e : XmlError)
    (h : decodeProcInst t = .error e) :
    e = .eof ∨ e = .syntaxError "xml: expected target name after <?" := by
  unfold decodeProcInst at h
  split at h
  · rename_i e' heq
    obtain rfl : e' = e := by simpa using h
    exact procInstLoop_err _ _ _ _ _ _ heq
  · simp at h

/-- The end-element sub-decoder can only fail with verbatim
end-of-input. -/
theorem decodeEndElement_err (t : Tokenizer) (e : XmlError)
    (h : decodeEndElement t = .error e) : e = .eof := by
  unfold decodeEndElement at h
  split at h
  · rename_i e' heq
    obtain rfl : e' = e := by simpa using h
    exact nameLoop_err _ _ _ _ _ _ _ heq
  · simp at h

/-- The start-element sub-decoder never produces the "early EOF"
error. -/
theorem decodeStartElement_err (t : Tokenizer) (b : Nat) (e : XmlError)
    (h : decodeStartElement t b = .error e) : e ≠ .syntaxError "early EOF" := by
  replace h : (match nameLoop ([] :: t.prefixes) (firstNonEmpty ([] :: t.spaces))
      false (if b = 0 then [] else [b]) [] t.input with
    | .error e => (Except.error e : Except XmlError (Tok × Tokenizer))
    | .ok (name, sep, def_, rest) =>
        startElemLoop t (rest.length + 1) name def_ [] ([] :: t.prefixes)
          ([] :: t.spaces) sep rest) = .error e := h
  by_cases h0 : b = 0
  · rw [if_pos h0] at h
    split at h
    · rename_i e' heq
      obtain rfl : e' = e := by simpa using h
      have he := nameLoop_err _ _ _ _ _ _ _ heq
      subst he
      simp
    · exact startElemLoop_err _ _ _ _ _ _ _ _ _ _ h
  · rw [if_neg h0] at h
    split at h
    · rename_i e' heq
      obtain rfl : e' = e := by simpa using h
      have he := nameLoop_err _ _ _ _ _ _ _ heq
      subst he
      simp
    · exact startElemLoop_err _ _ _ _ _ _ _ _ _ _ h

/-- The dispatch after the first byte produces "early EOF" exactly for a
`<` whose remaining input is empty, `!`, or `!-`. -/
theorem tokenDispatch_earlyEOF (t : Tokenizer) (b : Nat)
    (h : tokenDispatch t b = .error (.syntaxError "early EOF")) :
    b = 0x3C ∧ (t.input = [] ∨ t.input = [0x21] ∨ t.input = [0x21, 0x2D]) := by
  unfold tokenDispatch at h
  by_cases hb : b ≠ 0x3C
  · rw [if_pos hb] at h
    have := decodeCharData_err _ _ _ h
    simp at this
  · push_neg at hb
    rw [if_neg (by simp [hb])] at h
    refine ⟨hb, ?_⟩
    split at h
    · rename_i heq
      exact Or.inl heq
    · rename_i b2 rest heq
      by_cases h21 : b2 = 0x21
      · rw [if_pos h21] at h
        split at h
        · exact Or.inr (Or.inl (by rw [heq, h21]))
        · rename_i b3 rest3
          by_cases h2D : b3 = 0x2D
          · rw [if_pos h2D] at h
            split at h
            · exact Or.inr (Or.inr (by rw [heq, h21, h2D]))
            · rename_i b4 rest4
              by_cases h4 : b4 = 0x2D
              · rw [if_pos h4] at h
                have := decodeComment_err _ _ h
                simp at this
              · rw [if_neg h4] at h
                simp at h
          · rw [if_neg h2D] at h
            have := decodeDirective_err _ _ _ h
            simp at this
      · rw [if_neg h21] at h
        by_cases h3F : b2 = 0x3F
        · rw [if_pos h3F] at h
          rcases decodeProcInst_err _ _ h with h' | h' <;> simp at h'
        · rw [if_neg h3F] at h
          by_cases h2F : b2 = 0x2F
          · rw [if_pos h2F] at h
            have := decodeEndElement_err _ _ h
            simp at this
          · rw [if_neg h2F] at h
            exact absurd rfl (decodeStartElement_err _ _ _ h)

/-- A `Token()` call with no pending self-close and no pending `<`
produces "early EOF" exactly when its input starts with `<` and ends
within the `<` / `<!` / `<!-` prelude. -/
theorem token_earlyEOF_iff (t : Tokenizer) (hsc : t.selfClose = none)
    (hfs : t.foundStart = false) :
    Tokenizer.Token t = .error (.syntaxError "early EOF") ↔
      t.input.head? = some 0x3C ∧
        (t.input.tail = [] ∨ t.input.tail = [0x21] ∨
          t.input.tail = [0x21, 0x2D]) := by
  obtain ⟨input, fs, sc, ps, sps⟩ := t
  replace hsc : sc = none := hsc
  replace hfs : fs = false := hfs
  subst hsc hfs
  cases input with
  | nil =>
    refine iff_of_false (fun hL => ?_) (fun hR => by simp at hR)
    have hL' : (Except.error XmlError.eof : Except XmlError (Tok × Tokenizer)) =
        .error (.syntaxError "early EOF") := hL
    simp at hL'
  | cons b rest =>
    constructor
    · intro hL
      have hL' : tokenDispatch ⟨rest, false, none, ps, sps⟩ b =
          .error (.syntaxError "early EOF") := hL
      obtain ⟨rfl, hsh⟩ := tokenDispatch_earlyEOF _ _ hL'
      exact ⟨by simp, by simpa using hsh⟩
    · rintro ⟨hh, hsh⟩
      obtain rfl : b = 0x3C := by simpa using hh
      simp only [List.tail_cons] at hsh
      rcases hsh with rfl | rfl | rfl <;> rfl

/-- C2 counterexample: end-of-input in the middle of character data (the
committed token after reading the byte `a`) is returned verbatim as
end-of-input, not as the claimed "early EOF" syntax error. -/
theorem chardata_eof_verbatim :
    Tokenizer.Token ⟨[0x61], false, none, [], []⟩ = .error .eof ∧
    XmlError.eof ≠ XmlError.syntaxError "early EOF" :=
  ⟨rfl, by simp⟩

/-- C2 (amended): the "early EOF" syntax error arises exactly when
end-of-input hits the read immediately after `<` or inside the `<!` /
`<!--` prelude; end-of-input during the body of character data, a name,
an attribute value, a comment, a directive or a processing instruction
is returned verbatim as end-of-input, and end-of-input at the very start
of a `Token()` call is likewise returned verbatim with no token.  The
first six conjuncts classify every error exit of every body loop, over
every accumulation state and every remaining input: the only error they
produce from a read is verbatim end-of-input (the processing-instruction
loop may also raise its empty-target error, which is not an EOF
condition); the next two give the verbatim behavior of whole `Token()`
calls exhausting the reader in character data and at the very start; the
last is an exact characterization of "early EOF" over all states. -/
theorem earlyEOF_boundary :
    (∀ (buf X : List Nat) (e : XmlError),
      charDataLoop buf X = .error e → e = .eof) ∧
    (∀ (ps : List PrefixMap) (space : List Nat) (fs : Bool)
        (rf rs X : List Nat) (e : XmlError),
      nameLoop ps space fs rf rs X = .error e → e = .eof) ∧
    (∀ (q : Nat) (raw X : List Nat) (e : XmlError),
      attrValueLoop q raw X = .error e → e = .eof) ∧
    (∀ (f : Nat) (acc X : List Nat) (e : XmlError),
      commentLoop f acc X = .error e → e = .eof) ∧
    (∀ (dir X : List Nat) (e : XmlError),
      directiveLoop dir X = .error e → e = .eof) ∧
    (∀ (fs fe : Bool) (tg ins X : List Nat) (e : XmlError),
      procInstLoop fs fe tg ins X = .error e →
        e = .eof ∨ e = .syntaxError "xml: expected target name after <?") ∧
    (∀ (ps : List PrefixMap) (sps : List (List Nat)) (b : Nat) (X : List Nat),
      b ≠ 0x3C → (∀ c ∈ X, c ≠ 0x3C) →
        Tokenizer.Token ⟨b :: X, false, none, ps, sps⟩ = .error .eof) ∧
    (∀ (ps : List PrefixMap) (sps : List (List Nat)),
      Tokenizer.Token ⟨[], false, none, ps, sps⟩ = .error .eof) ∧
    (∀ t : Tokenizer, t.selfClose = none → t.foundStart = false →
      (Tokenizer.Token t = .error (.syntaxError "early EOF") ↔
        t.input.head? = some 0x3C ∧
          (t.input.tail = [] ∨ t.input.tail = [0x21] ∨
            t.input.tail = [0x21, 0x2D]))) := by
  refine ⟨fun buf X e h => charDataLoop_err X buf e h,
    fun ps space fs rf rs X e h => nameLoop_err X ps space fs rf rs e h,
    fun q raw X e h => attrValueLoop_err X q raw e h,
    fun f acc X e h => commentLoop_err X f acc e h,
    fun dir X e h => directiveLoop_err X dir e h,
    fun fs fe tg ins X e h => procInstLoop_err X fs fe tg ins e h,
    ?_, fun ps sps => rfl, token_earlyEOF_iff⟩
  intro ps sps b X hb hX
  have hc := charDataLoop_no_lt X [b] hX
  simp [Tokenizer.Token, tokenDispatch, hb, decodeCharData, hc]

/-- C2 witness: the characterization applied at the one-byte input `<`
and the verbatim-EOF conjunct at the empty input. -/
theorem earlyEOF_boundary_witness :
    Tokenizer.Token ⟨[0x3C], false, none, [], []⟩ =
      .error (.syntaxError "early EOF") ∧
    Tokenizer.Token ⟨[], false, none, [], []⟩ = .error .eof :=
  ⟨(earlyEOF_boundary.2.2.2.2.2.2.2.2 ⟨[0x3C], false, none, [], []⟩ rfl
      rfl).mpr ⟨rfl, Or.inl rfl⟩,
   earlyEOF_boundary.2.2.2.2.2.2.2.1 [] []⟩

set_option maxRecDepth 100000 in
/-- C4 counterexample: with the 8-bit dash counter, a comment body of 256
dashes followed by `a` flushes 256 mod 256 = 0 dashes, so the emitted
Comment is just `a` and the run is not reproduced verbatim; and after 257
dashes the pending count reads 1, so the following `>` does not end the
comment even though more than two dashes are pending, and the tokenizer
runs off the end of the input instead. -/
theorem comment_dash_overflow :
    Tokenizer.Token ⟨[0x3C, 0x21, 0x2D, 0x2D] ++
        (List.replicate 256 0x2D ++ [0x61, 0x2D, 0x2D, 0x3E]), false, none, [], []⟩ =
      .ok (.comment [0x61], ⟨[], false, none, [], []⟩) ∧
    ([0x61] : List Nat) ≠ List.replicate 256 0x2D ++ [0x61] ∧
    Tokenizer.Token ⟨[0x3C, 0x21, 0x2D, 0x2D] ++
        (List.replicate 257 0x2D ++ [0x3E]), false, none, [], []⟩ = .error .eof := by
  refine ⟨?_, by decide, ?_⟩ <;> rfl

/-- C4 (amended): a pending run of N consecutive dashes followed by a
non-dash byte flushes exactly N mod 256 literal dashes (the counter is an
8-bit integer) before the current byte is appended, so runs of fewer
than 256 dashes are reproduced verbatim; and a `>` ends the comment
exactly when the pending dash count mod 256 is at least 2. -/
theorem comment_dash_flush_mod (n : Nat) (acc rest : List Nat) (b : Nat)
    (hb : b ≠ 0x2D) (hbg : ¬(b = 0x3E ∧ n % 256 > 1)) :
    commentLoop 0 acc (List.replicate n 0x2D ++ b :: rest) =
      commentLoop 0 (acc ++ List.replicate (n % 256) 0x2D ++ [b]) rest ∧
    ∀ (m : Nat) (acc2 rest2 : List Nat), m % 256 > 1 →
      commentLoop 0 acc2 (List.replicate m 0x2D ++ 0x3E :: rest2) =
        .ok (acc2, rest2) := by
  constructor
  · rw [commentLoop_dashes n 0 acc _ (by omega)]
    simp only [Nat.zero_add, commentLoop, if_neg hb, if_neg hbg]
  · intro m acc2 rest2 hm
    rw [commentLoop_dashes m 0 acc2 _ (by omega)]
    simp only [Nat.zero_add, commentLoop]
    rw [if_neg (by decide : ¬((0x3E : Nat) = 0x2D))]
    rw [if_pos (by exact ⟨by norm_num, hm⟩)]

/-- C4 witness: a run of three dashes before `a`, and the closing rule at
a pending count of two. -/
theorem comment_dash_flush_mod_witness :
    (commentLoop 0 [] (List.replicate 3 0x2D ++ [0x61]) =
      commentLoop 0 ([] ++ List.replicate (3 % 256) 0x2D ++ [0x61]) [] ∧
    ∀ (m : Nat) (acc2 rest2 : List Nat), m % 256 > 1 →
      commentLoop 0 acc2 (List.replicate m 0x2D ++ 0x3E :: rest2) =
        .ok (acc2, rest2)) :=
  comment_dash_flush_mod 3 [] [] 0x61 (by decide) (by decide)

/-- C6 counterexample: the processing instruction `<??>` closes before
any content byte enters the instruction phase, so `Token()` returns a
ProcInst with empty target and no error rather than the claimed syntax
error. -/
theorem empty_target_procinst_ok :
    Tokenizer.Token ⟨[0x3C, 0x3F, 0x3F, 0x3E], false, none, [], []⟩ =
      .ok (.procInst [] [], ⟨[], false, none, [], []⟩) ∧
    ∀ e : XmlError,
      Tokenizer.Token ⟨[0x3C, 0x3F, 0x3F, 0x3E], false, none, [], []⟩ ≠
        .error e :=
  ⟨rfl, fun _ h => by simp [Tokenizer.Token, tokenDispatch, decodeProcInst,
    procInstLoop] at h⟩

/-- C6 (amended): the syntax error for an empty target is raised exactly
when a byte other than `?` is consumed after the target phase has ended
with an empty target --- for any whitespace byte `w` and any following
byte `b` that is not `?`, including `>` and further whitespace --- while
a processing instruction that closes immediately via `?>` with no target
bytes returns a ProcInst with empty target and no error. -/
theorem procinst_empty_target_boundary (w b : Nat) (rest : List Nat)
    (hw : isSpace w = true) (hb : b ≠ 0x3F) :
    Tokenizer.Token ⟨0x3C :: 0x3F :: w :: b :: rest, false, none, [], []⟩ =
      .error (.syntaxError "xml: expected target name after <?") ∧
    ∀ rest2 : List Nat,
      Tokenizer.Token ⟨0x3C :: 0x3F :: 0x3F :: 0x3E :: rest2, false, none, [], []⟩ =
        .ok (.procInst [] [], ⟨rest2, false, none, [], []⟩) := by
  constructor
  · have hw3F : w ≠ 0x3F := by
      have hw' := hw
      simp only [isSpace, Bool.or_eq_true, beq_iff_eq] at hw'
      omega
    simp [Tokenizer.Token, tokenDispatch, decodeProcInst, procInstLoop,
      if_neg hw3F, hw, if_neg hb]
  · intro rest2
    simp [Tokenizer.Token, tokenDispatch, decodeProcInst, procInstLoop]

/-- C6 witness: the boundary theorem at `<? x` (space then `x`). -/
theorem procinst_empty_target_boundary_witness :
    Tokenizer.Token ⟨0x3C :: 0x3F :: 0x20 :: 0x78 :: [], false, none, [], []⟩ =
      .error (.syntaxError "xml: expected target name after <?") :=
  (procinst_empty_target_boundary 0x20 0x78 [] (by decide) (by decide)).1

/-! ### Splitter lemmas -/

/-- Position `j` of the byte list holds a `>` that the spec's quote
tracking sees in unquoted mode, starting from quote state `sq`. -/
def GtAt (l : List Nat) (sq : Nat) (j : Nat) : Prop :=
  l.get? j = some 0x3E ∧ (l.take j).foldl specQuoteStep sq = 0

instance (l : List Nat) (sq j : Nat) : Decidable (GtAt l sq j) := by
  unfold GtAt; infer_instance

theorem gtAt_cons (b : Nat) (rest : List Nat) (sq j : Nat) :
    GtAt (b :: rest) sq (j + 1) ↔ GtAt rest (specQuoteStep sq b) j := by
  unfold GtAt
  rw [List.get?_cons_succ, List.take_succ_cons, List.foldl_cons]

theorem gtAt_zero (b : Nat) (rest : List Nat) (sq : Nat) :
    GtAt (b :: rest) sq 0 ↔ (b = 0x3E ∧ sq = 0) := by
  unfold GtAt
  simp

theorem gtAt_lift (b : Nat) (rest : List Nat) (sq sq' i' : Nat)
    (hstep : specQuoteStep sq b = sq')
    (h0 : ¬ GtAt (b :: rest) sq 0)
    (h1 : GtAt rest sq' i') (h2 : ∀ j < i', ¬ GtAt rest sq' j) :
    GtAt (b :: rest) sq (i' + 1) ∧ ∀ j < i' + 1, ¬ GtAt (b :: rest) sq j := by
  constructor
  · rw [gtAt_cons, hstep]; exact h1
  · intro j hj
    cases j with
    | zero => exact h0
    | succ j' =>
      rw [gtAt_cons, hstep]
      exact h2 j' (by omega)

/-- Soundness of the fused scan: a found index is an unquoted `>` and is
the least such index. -/
theorem splitOtherAux_some : ∀ (l : List Nat) (sq i : Nat),
    splitOtherAux sq l = some i → GtAt l sq i ∧ ∀ j < i, ¬ GtAt l sq j := by
  intro l
  induction l with
  | nil => intro sq i h; simp [splitOtherAux] at h
  | cons b rest ih =>
    intro sq i h
    simp only [splitOtherAux] at h
    by_cases hsq : sq ≠ 0
    · rw [if_pos hsq] at h
      by_cases hbq : b = sq
      · rw [if_pos hbq] at h
        obtain ⟨i', hi', rfl⟩ := Option.map_eq_some'.mp h
        obtain ⟨h1, h2⟩ := ih 0 i' hi'
        exact gtAt_lift b rest sq 0 i' (by simp [specQuoteStep, hsq, hbq])
          (by rw [gtAt_zero]; rintro ⟨-, hc⟩; exact hsq hc) h1 h2
      · rw [if_neg hbq] at h
        obtain ⟨i', hi', rfl⟩ := Option.map_eq_some'.mp h
        obtain ⟨h1, h2⟩ := ih sq i' hi'
        exact gtAt_lift b rest sq sq i' (by simp [specQuoteStep, hsq, hbq])
          (by rw [gtAt_zero]; rintro ⟨-, hc⟩; exact hsq hc) h1 h2
    · push_neg at hsq
      subst hsq
      rw [if_neg (by simp)] at h
      by_cases hquote : b = 0x22 ∨ b = 0x27
      · rw [if_pos hquote] at h
        obtain ⟨i', hi', rfl⟩ := Option.map_eq_some'.mp h
        obtain ⟨h1, h2⟩ := ih b i' hi'
        exact gtAt_lift b rest 0 b i' (by simp [specQuoteStep, hquote])
          (by rw [gtAt_zero]; rintro ⟨hc, -⟩; rcases hquote with h' | h' <;> omega)
          h1 h2
      · rw [if_neg hquote] at h
        by_cases hgt : b = 0x3E
        · rw [if_pos hgt] at h
          obtain rfl : (0 : Nat) = i := Option.some.inj h
          refine ⟨?_, by omega⟩
          rw [gtAt_zero]
          exact ⟨hgt, rfl⟩
        · rw [if_neg hgt] at h
          obtain ⟨i', hi', rfl⟩ := Option.map_eq_some'.mp h
          obtain ⟨h1, h2⟩ := ih 0 i' hi'
          exact gtAt_lift b rest 0 0 i' (by simp [specQuoteStep, hquote])
            (by rw [gtAt_zero]; rintro ⟨hc, -⟩; exact hgt hc) h1 h2

theorem gtAt_none_lift (b : Nat) (rest : List Nat) (sq sq' : Nat)
    (hstep : specQuoteStep sq b = sq')
    (h0 : ¬ GtAt (b :: rest) sq 0)
    (hrec : ∀ j, ¬ GtAt rest sq' j) : ∀ j, ¬ GtAt (b :: rest) sq j := by
  intro j
  cases j with
  | zero => exact h0
  | succ j' =>
    rw [gtAt_cons, hstep]
    exact hrec j'

/-- Completeness of the fused scan: when it finds nothing, no index holds
an unquoted `>`. -/
theorem splitOtherAux_none : ∀ (l : List Nat) (sq : Nat),
    splitOtherAux sq l = none → ∀ j, ¬ GtAt l sq j := by
  intro l
  induction l with
  | nil =>
    intro sq _ j
    unfold GtAt
    simp
  | cons b rest ih =>
    intro sq h
    simp only [splitOtherAux] at h
    by_cases hsq : sq ≠ 0
    · rw [if_pos hsq] at h
      by_cases hbq : b = sq
      · rw [if_pos hbq] at h
        exact gtAt_none_lift b rest sq 0 (by simp [specQuoteStep, hsq, hbq])
          (by rw [gtAt_zero]; rintro ⟨-, hc⟩; exact hsq hc)
          (ih 0 (Option.map_eq_none'.mp h))
      · rw [if_neg hbq] at h
        exact gtAt_none_lift b rest sq sq (by simp [specQuoteStep, hsq, hbq])
          (by rw [gtAt_zero]; rintro ⟨-, hc⟩; exact hsq hc)
          (ih sq (Option.map_eq_none'.mp h))
    · push_neg at hsq
      subst hsq
      rw [if_neg (by simp)] at h
      by_cases hquote : b = 0x22 ∨ b = 0x27
      · rw [if_pos hquote] at h
        exact gtAt_none_lift b rest 0 b (by simp [specQuoteStep, hquote])
          (by rw [gtAt_zero]; rintro ⟨hc, -⟩; rcases hquote with h' | h' <;> omega)
          (ih b (Option.map_eq_none'.mp h))
      · rw [if_neg hquote] at h
        by_cases hgt : b = 0x3E
        · rw [if_pos hgt] at h
          exact absurd h (by simp)
        · rw [if_neg hgt] at h
          exact gtAt_none_lift b rest 0 0 (by simp [specQuoteStep, hquote])
            (by rw [gtAt_zero]; rintro ⟨hc, -⟩; exact hgt hc)
            (ih 0 (Option.map_eq_none'.mp h))

theorem get?_lt_of_eq_some {α : Type} {l : List α} {i : Nat} {a : α}
    (h : l.get? i = some a) : i < l.length := by
  by_contra hn
  rw [List.get?_eq_none.mpr (by omega)] at h
  exact Option.noConfusion h

/-- C7: for input beginning with `<` but not with the CDATA marker,
`Split` delegates to the quote-tracking scan: the token ends at the first
`>` lying outside quotes (in the sense of the spec's quote-state
transition `specQuoteState`), inclusive, with advance equal to the token
length; when no such `>` exists the whole remainder is emitted at end of
input, and more data is requested otherwise, with no error. -/
theorem split_other_quote_scan (d : List Nat) (atEOF : Bool)
    (hd : d.head? = some 0x3C) (hc : cdataStartL.isPrefixOf d = false) :
    Split d atEOF = some (splitOther d atEOF) ∧
    (∀ i, d.get? i = some 0x3E → specQuoteState (d.take i) = 0 →
      (∀ j, j < i → ¬(d.get? j = some 0x3E ∧ specQuoteState (d.take j) = 0)) →
      splitOther d atEOF = (i + 1, some (d.take (i + 1)), none) ∧
        i + 1 = (d.take (i + 1)).length) ∧
    ((∀ j, ¬(d.get? j = some 0x3E ∧ specQuoteState (d.take j) = 0)) →
      ((atEOF = true → splitOther d atEOF = (d.length, some d, none)) ∧
       (atEOF = false → splitOther d atEOF = (0, none, none)))) := by
  obtain ⟨b, d', rfl⟩ : ∃ b d', d = b :: d' := by
    cases d with
    | nil => simp at hd
    | cons b d' => exact ⟨b, d', rfl⟩
  have hb : b = 0x3C := by simpa using hd
  subst hb
  have hGt : ∀ j, GtAt (0x3C :: d') 0 j ↔
      ((0x3C :: d').get? j = some 0x3E ∧
        specQuoteState ((0x3C :: d').take j) = 0) := fun _ => Iff.rfl
  refine ⟨by simp [Split, hc], ?_, ?_⟩
  · intro i h1 h2 h3
    cases haux : splitOtherAux 0 (0x3C :: d') with
    | none => exact absurd ((hGt i).mpr ⟨h1, h2⟩) (splitOtherAux_none _ 0 haux i)
    | some i' =>
      obtain ⟨hg, hmin⟩ := splitOtherAux_some _ 0 i' haux
      have hii : i = i' := by
        rcases Nat.lt_trichotomy i i' with hlt | heq | hgt'
        · exact absurd ((hGt i).mpr ⟨h1, h2⟩) (hmin i hlt)
        · exact heq
        · exact absurd ((hGt i').mp hg) (h3 i' hgt')
      subst hii
      refine ⟨by simp [splitOther, haux], ?_⟩
      have hlt := get?_lt_of_eq_some h1
      rw [List.length_take]
      omega
  · intro hno
    cases haux : splitOtherAux 0 (0x3C :: d') with
    | some i' =>
      obtain ⟨hg, -⟩ := splitOtherAux_some _ 0 i' haux
      exact absurd ((hGt i').mp hg) (hno i')
    | none =>
      constructor <;> intro hA <;> subst hA <;> simp [splitOther, haux]

/-- C7 witness: `<a>` ends at index 2 with advance 3 = token length. -/
theorem split_other_quote_scan_witness :
    Split [0x3C, 0x61, 0x3E] false = some (splitOther [0x3C, 0x61, 0x3E] false) ∧
    splitOther [0x3C, 0x61, 0x3E] false = (3, some [0x3C, 0x61, 0x3E], none) :=
  ⟨(split_other_quote_scan [0x3C, 0x61, 0x3E] false rfl rfl).1,
   ((split_other_quote_scan [0x3C, 0x61, 0x3E] false rfl rfl).2.1 2 (by decide)
     (by decide) (by decide)).1⟩

theorem isPrefixOf_length_le : ∀ (p l : List Nat),
    p.isPrefixOf l = true → p.length ≤ l.length
  | [], _, _ => by simp
  | _ :: _, [], h => by simp [List.isPrefixOf] at h
  | a :: p, b :: l, h => by
    simp only [List.isPrefixOf, Bool.and_eq_true, beq_iff_eq] at h
    have := isPrefixOf_length_le p l h.2
    simp only [List.length_cons]
    omega

theorem indexOfSub_bound : ∀ (l pat : List Nat) (i : Nat),
    indexOfSub l pat = some i → i + pat.length ≤ l.length := by
  intro l
  induction l with
  | nil =>
    intro pat i h
    simp only [indexOfSub] at h
    by_cases hp : pat.isPrefixOf []
    · rw [if_pos hp] at h
      obtain rfl : (0 : Nat) = i := Option.some.inj h
      simpa using isPrefixOf_length_le pat [] hp
    · rw [if_neg hp] at h
      exact absurd h (by simp)
  | cons b rest ih =>
    intro pat i h
    simp only [indexOfSub] at h
    by_cases hp : pat.isPrefixOf (b :: rest)
    · rw [if_pos hp] at h
      obtain rfl : (0 : Nat) = i := Option.some.inj h
      simpa using isPrefixOf_length_le pat (b :: rest) hp
    · rw [if_neg hp] at h
      obtain ⟨i', hi', rfl⟩ := Option.map_eq_some'.mp h
      have := ih pat i' hi'
      simp only [List.length_cons]
      omega

theorem findByte_bound : ∀ (l : List Nat) (b i : Nat),
    findByte b l = some i → i < l.length := by
  intro l
  induction l with
  | nil => intro b i h; simp [findByte] at h
  | cons c rest ih =>
    intro b i h
    simp only [findByte] at h
    by_cases hc : c = b
    · rw [if_pos hc] at h
      obtain rfl : (0 : Nat) = i := Option.some.inj h
      simp
    · rw [if_neg hc] at h
      obtain ⟨i', hi', rfl⟩ := Option.map_eq_some'.mp h
      have := ih b i' hi'
      simp only [List.length_cons]
      omega

theorem findByte_head_ne (c b : Nat) (rest : List Nat) (hne : ¬(c = b)) (i : Nat)
    (h : findByte b (c :: rest) = some i) : 1 ≤ i := by
  simp only [findByte, if_neg hne] at h
  obtain ⟨i', hi', rfl⟩ := Option.map_eq_some'.mp h
  omega

theorem splitOtherAux_lt (l : List Nat) (sq i : Nat)
    (h : splitOtherAux sq l = some i) : i < l.length := by
  have h1 := (splitOtherAux_some l sq i h).1
  unfold GtAt at h1
  exact get?_lt_of_eq_some h1.1

theorem splitCData_emit (data : List Nat) (atEOF : Bool) (adv : Nat)
    (tok : List Nat) (err : Option XmlError)
    (h : splitCData data atEOF = (adv, some tok, err)) :
    adv = tok.length ∧ tok = data.take adv := by
  unfold splitCData at h
  cases hidx : indexOfSub data cdataEndL with
  | none =>
    rw [hidx] at h
    cases atEOF with
    | false => simp at h
    | true =>
      rw [if_pos rfl] at h
      obtain rfl : data.length = adv := congrArg (fun p => p.1) h
      obtain rfl : data = tok := Option.some.inj (congrArg (fun p => p.2.1) h)
      exact ⟨rfl, (List.take_length data).symm⟩
  | some idx =>
    rw [hidx] at h
    obtain rfl : idx + cdataEndL.length = adv := congrArg (fun p => p.1) h
    obtain rfl : data.take (idx + cdataEndL.length) = tok :=
      Option.some.inj (congrArg (fun p => p.2.1) h)
    have hb := indexOfSub_bound data cdataEndL idx hidx
    rw [List.length_take]
    exact ⟨by omega, rfl⟩

theorem splitCharData_emit (data : List Nat) (atEOF : Bool) (adv : Nat)
    (tok : List Nat) (err : Option XmlError)
    (h : splitCharData data atEOF = (adv, some tok, err)) :
    adv = tok.length ∧ tok = data.take adv := by
  unfold splitCharData at h
  cases hidx : findByte 0x3C data with
  | none =>
    rw [hidx] at h
    cases atEOF with
    | false => simp at h
    | true =>
      rw [if_pos rfl] at h
      obtain rfl : data.length = adv := congrArg (fun p => p.1) h
      obtain rfl : data = tok := Option.some.inj (congrArg (fun p => p.2.1) h)
      exact ⟨rfl, (List.take_length data).symm⟩
  | some idx =>
    rw [hidx] at h
    obtain rfl : idx = adv := congrArg (fun p => p.1) h
    obtain rfl : data.take idx = tok :=
      Option.some.inj (congrArg (fun p => p.2.1) h)
    have hb := findByte_bound _ _ _ hidx
    rw [List.length_take]
    exact ⟨by omega, rfl⟩

theorem splitOther_emit (data : List Nat) (atEOF : Bool) (adv : Nat)
    (tok : List Nat) (err : Option XmlError)
    (h : splitOther data atEOF = (adv, some tok, err)) :
    adv = tok.length ∧ tok = data.take adv := by
  unfold splitOther at h
  cases haux : splitOtherAux 0 data with
  | none =>
    rw [haux] at h
    cases atEOF with
    | false => simp at h
    | true =>
      rw [if_pos rfl] at h
      obtain rfl : data.length = adv := congrArg (fun p => p.1) h
      obtain rfl : data = tok := Option.some.inj (congrArg (fun p => p.2.1) h)
      exact ⟨rfl, (List.take_length data).symm⟩
  | some i =>
    rw [haux] at h
    obtain rfl : i + 1 = adv := congrArg (fun p => p.1) h
    obtain rfl : data.take (i + 1) = tok :=
      Option.some.inj (congrArg (fun p => p.2.1) h)
    have hlt := splitOtherAux_lt _ _ _ haux
    rw [List.length_take]
    exact ⟨by omega, rfl⟩

/-- Every token-emitting branch of `Split` returns an advance equal to
the token length, the token being the consumed prefix of the buffer. -/
theorem split_emit_take (data : List Nat) (atEOF : Bool) (adv : Nat)
    (tok : List Nat) (err : Option XmlError)
    (h : Split data atEOF = some (adv, some tok, err)) :
    adv = tok.length ∧ tok = data.take adv := by
  unfold Split at h
  by_cases he : data.isEmpty ∧ atEOF
  · rw [if_pos he] at h
    simp at h
  · rw [if_neg he] at h
    by_cases hcd : cdataStartL.isPrefixOf data
    · rw [if_pos hcd] at h
      exact splitCData_emit data atEOF adv tok err (Option.some.inj h)
    · rw [if_neg hcd] at h
      by_cases hemp : data.isEmpty
      · rw [if_pos hemp] at h
        exact absurd h (by simp)
      · rw [if_neg hemp] at h
        by_cases hb : data.headD 0 ≠ 0x3C
        · rw [if_pos hb] at h
          exact splitCharData_emit data atEOF adv tok err (Option.some.inj h)
        · rw [if_neg hb] at h
          exact splitOther_emit data atEOF adv tok err (Option.some.inj h)

/-- With `atEOF` true, `Split` on a nonempty buffer always emits a token
with a positive advance bounded by the buffer length. -/
theorem split_progress (b : Nat) (rest : List Nat) :
    ∃ adv tok, Split (b :: rest) true = some (adv, some tok, none) ∧
      1 ≤ adv ∧ adv ≤ (b :: rest).length := by
  unfold Split
  rw [if_neg (by simp)]
  by_cases hcd : cdataStartL.isPrefixOf (b :: rest)
  · rw [if_pos hcd]
    unfold splitCData
    cases hidx : indexOfSub (b :: rest) cdataEndL with
    | none => exact ⟨(b :: rest).length, b :: rest, rfl, by simp, le_refl _⟩
    | some idx =>
      refine ⟨idx + cdataEndL.length, _, rfl, by simp [cdataEndL], ?_⟩
      exact indexOfSub_bound _ _ _ hidx
  · rw [if_neg hcd, if_neg (by simp)]
    by_cases hb : (b :: rest).headD 0 ≠ 0x3C
    · rw [if_pos hb]
      unfold splitCharData
      cases hidx : findByte 0x3C (b :: rest) with
      | none => exact ⟨(b :: rest).length, b :: rest, rfl, by simp, le_refl _⟩
      | some idx =>
        refine ⟨idx, _, rfl, findByte_head_ne b 0x3C rest (by simpa using hb) idx hidx, ?_⟩
        exact le_of_lt (findByte_bound _ _ _ hidx)
    · rw [if_neg hb]
      unfold splitOther
      cases haux : splitOtherAux 0 (b :: rest) with
      | none => exact ⟨(b :: rest).length, b :: rest, rfl, by simp, le_refl _⟩
      | some i =>
        refine ⟨i + 1, _, rfl, by omega, ?_⟩
        exact splitOtherAux_lt _ _ _ haux

/-- Whatever the driver returns reconstructs exactly the bytes consumed. -/
theorem driveSplit_sound : ∀ (fuel : Nat) (data : List Nat) (toks : List (List Nat)),
    driveSplit fuel data = some toks → toks.flatten = data := by
  intro fuel
  induction fuel with
  | zero =>
    intro data toks h
    cases data with
    | nil =>
      obtain rfl := Option.some.inj h
      rfl
    | cons b rest => simp [driveSplit] at h
  | succ fuel ih =>
    intro data toks h
    cases data with
    | nil =>
      obtain rfl := Option.some.inj h
      rfl
    | cons b rest =>
      simp only [driveSplit] at h
      cases hsp : Split (b :: rest) true with
      | none => rw [hsp] at h; simp at h
      | some v =>
        obtain ⟨adv, otok, oerr⟩ := v
        rw [hsp] at h
        cases otok with
        | none => simp at h
        | some tok =>
          cases oerr with
          | some e => simp at h
          | none =>
            by_cases hadv : adv = 0
            · simp only [if_pos hadv] at h
              exact absurd h (by simp)
            · simp only [if_neg hadv] at h
              obtain ⟨toks', htoks', rfl⟩ := Option.map_eq_some'.mp h
              obtain ⟨-, htok⟩ := split_emit_take _ _ _ _ _ hsp
              have hjoin := ih _ _ htoks'
              calc (tok :: toks').flatten
                  = tok ++ toks'.flatten := rfl
                _ = (b :: rest).take adv ++ (b :: rest).drop adv := by
                    rw [← htok, hjoin]
                _ = b :: rest := List.take_append_drop adv (b :: rest)

/-- With fuel at least the buffer length, the driver always succeeds. -/
theorem driveSplit_total : ∀ (fuel : Nat) (data : List Nat),
    data.length ≤ fuel → ∃ toks, driveSplit fuel data = some toks := by
  intro fuel
  induction fuel with
  | zero =>
    intro data h
    have hnil : data = [] := List.eq_nil_of_length_eq_zero (by omega)
    subst hnil
    exact ⟨[], rfl⟩
  | succ fuel ih =>
    intro data h
    cases data with
    | nil => exact ⟨[], rfl⟩
    | cons b rest =>
      obtain ⟨adv, tok, hsp, hadv1, hadv2⟩ := split_progress b rest
      obtain ⟨toks', htoks'⟩ := ih ((b :: rest).drop adv) (by
        simp only [List.length_drop, List.length_cons]
        simp only [List.length_cons] at h
        omega)
      refine ⟨tok :: toks', ?_⟩
      simp only [driveSplit, hsp]
      rw [if_neg (by omega), htoks']
      rfl

/-- C8: every token-emitting branch of `Split` returns an advance equal
to the length of the returned token, the token being exactly the
consumed prefix; consequently driving any input to completion through
repeated `Split` calls with `atEOF` true succeeds, and concatenating the
emitted tokens reconstructs the original input exactly. -/
theorem split_cover_reconstructs :
    (∀ (data : List Nat) (atEOF : Bool) (adv : Nat) (tok : List Nat)
        (err : Option XmlError),
      Split data atEOF = some (adv, some tok, err) →
        adv = tok.length ∧ tok = data.take adv) ∧
    ∀ data : List Nat, ∃ toks : List (List Nat),
      driveSplit data.length data = some toks ∧ toks.flatten = data := by
  refine ⟨split_emit_take, fun data => ?_⟩
  obtain ⟨toks, htoks⟩ := driveSplit_total data.length data (le_refl _)
  exact ⟨toks, htoks, driveSplit_sound _ _ _ htoks⟩

/-- C8 witness: on `ab<` with more data pending, the emitted character
data token `ab` has advance 2 and is the consumed prefix. -/
theorem split_cover_reconstructs_witness :
    2 = ([0x61, 0x62] : List Nat).length ∧
      ([0x61, 0x62] : List Nat) = ([0x61, 0x62, 0x3C] : List Nat).take 2 :=
  split_cover_reconstructs.1 [0x61, 0x62, 0x3C] false 2 [0x61, 0x62] none rfl

/-- C9 counterexample: `Split` on an empty slice with `atEOF` false
reaches the `data[0]` dispatch out of bounds (a Go runtime panic,
modelled as `none`), rather than returning advance 0, no token and no
error as claimed. -/
theorem split_empty_not_total :
    Split [] false = none ∧
    (none : Option (Nat × Option (List Nat) × Option XmlError)) ≠
      some (0, none, none) :=
  ⟨rfl, by simp⟩

/-- C9 (amended): `Split` returns without out-of-bounds access for every
nonempty data slice with either flag, and for the empty slice when
`atEOF` is true; only the empty slice with `atEOF` false reaches the
out-of-bounds `data[0]` dispatch. -/
theorem split_defined_off_empty (data : List Nat) (atEOF : Bool) (h : data ≠ []) :
    (Split data atEOF).isSome ∧ (Split [] true).isSome := by
  refine ⟨?_, rfl⟩
  obtain ⟨b, rest, rfl⟩ := List.exists_cons_of_ne_nil h
  unfold Split
  by_cases he : (b :: rest).isEmpty ∧ atEOF
  · rw [if_pos he]; rfl
  · rw [if_neg he]
    by_cases hcd : cdataStartL.isPrefixOf (b :: rest)
    · rw [if_pos hcd]; rfl
    · rw [if_neg hcd, if_neg (by simp)]
      by_cases hb : (b :: rest).headD 0 ≠ 0x3C
      · rw [if_pos hb]; rfl
      · rw [if_neg hb]; rfl

/-- C9 witness: the amended totality at a one-byte slice. -/
theorem split_defined_off_empty_witness :
    (Split [0x61] false).isSome ∧ (Split [] true).isSome :=
  split_defined_off_empty [0x61] false (by decide)

end MelliumXml
